import Mathlib

/-!
Verification of the xthttp HTTP client core: a shallow embedding of the
encoding resolver (src/xthttp/resp/encoding.py), the unified response object
(src/xthttp/resp/unified_resp.py) and the concurrent batch request engine
(src/xthttp/ahttp.py), together with theorems settling the specification
claims about them.

Bytes are modelled as natural numbers below 256 (`List Nat`); Python
exceptions are modelled as `Option`/`Except` results; the external chardet
library and the stdlib JSON parser are modelled as oracle parameters.
-/

namespace Xthttp

/-! ## Byte-level codecs

Python's codec machinery is external to the repository; the model below
implements the codecs the repository actually selects.  UTF-8 is implemented
to the real standard (strict decoding rejects overlong forms, surrogates and
code points above U+10FFFF).  GBK / GB18030 / Big5 are modelled structurally:
the set of byte sequences that decode without error follows the encodings'
byte-range structure, and each multi-byte unit is mapped injectively into
otherwise-unused code points (the claims under verification depend only on
which inputs decode, never on the glyph a GBK pair denotes). -/

/-- ASCII lowercase of one character (model of Python's `str.lower` on the
ASCII range, which is all the compared labels use). -/
def lowerChar (c : Char) : Char :=
  if 'A' ≤ c && c ≤ 'Z' then Char.ofNat (c.toNat + 32) else c

/-- ASCII lowercase of a string. -/
def strToLower (s : String) : String := String.mk (s.toList.map lowerChar)

/-- Is `b` a UTF-8 continuation byte (0x80-0xBF)? -/
def contByte (b : Nat) : Bool := 0x80 ≤ b && b < 0xC0

/-- Strict UTF-8 decoding of a byte list; `none` models UnicodeDecodeError. -/
def utf8DecodeList : List Nat → Option (List Char)
  | [] => some []
  | b :: bs =>
    if b < 0x80 then
      match utf8DecodeList bs with
      | some cs => some (Char.ofNat b :: cs)
      | none => none
    else if b < 0xC2 then none
    else if b < 0xE0 then
      match bs with
      | b1 :: bs1 =>
        if contByte b1 then
          match utf8DecodeList bs1 with
          | some cs => some (Char.ofNat ((b - 0xC0) * 0x40 + (b1 - 0x80)) :: cs)
          | none => none
        else none
      | [] => none
    else if b < 0xF0 then
      match bs with
      | b1 :: b2 :: bs2 =>
        if (if b = 0xE0 then decide (0xA0 ≤ b1 && b1 ≤ 0xBF)
            else if b = 0xED then decide (0x80 ≤ b1 && b1 ≤ 0x9F)
            else contByte b1) && contByte b2 then
          match utf8DecodeList bs2 with
          | some cs =>
              some (Char.ofNat ((b - 0xE0) * 0x1000 + (b1 - 0x80) * 0x40 + (b2 - 0x80)) :: cs)
          | none => none
        else none
      | _ => none
    else if b < 0xF5 then
      match bs with
      | b1 :: b2 :: b3 :: bs3 =>
        if (if b = 0xF0 then decide (0x90 ≤ b1 && b1 ≤ 0xBF)
            else if b = 0xF4 then decide (0x80 ≤ b1 && b1 ≤ 0x8F)
            else contByte b1) && contByte b2 && contByte b3 then
          match utf8DecodeList bs3 with
          | some cs =>
              some (Char.ofNat ((b - 0xF0) * 0x40000 + (b1 - 0x80) * 0x1000 +
                (b2 - 0x80) * 0x40 + (b3 - 0x80)) :: cs)
          | none => none
        else none
      | _ => none
    else none

/-- Lossy UTF-8 decoding (`errors='replace'`): total; each undecodable byte is
replaced by U+FFFD.  (CPython coalesces a truncated multi-byte prefix into one
replacement character; this model emits one replacement per bad byte.  The
claims only use totality of this decoder, never its exact output.) -/
def utf8ReplaceList : List Nat → List Char
  | [] => []
  | b :: bs =>
    if b < 0x80 then Char.ofNat b :: utf8ReplaceList bs
    else if b < 0xC2 then Char.ofNat 0xFFFD :: utf8ReplaceList bs
    else if b < 0xE0 then
      match bs with
      | b1 :: bs1 =>
        if contByte b1 then
          Char.ofNat ((b - 0xC0) * 0x40 + (b1 - 0x80)) :: utf8ReplaceList bs1
        else Char.ofNat 0xFFFD :: utf8ReplaceList (b1 :: bs1)
      | [] => [Char.ofNat 0xFFFD]
    else if b < 0xF0 then
      match bs with
      | b1 :: b2 :: bs2 =>
        if (if b = 0xE0 then decide (0xA0 ≤ b1 && b1 ≤ 0xBF)
            else if b = 0xED then decide (0x80 ≤ b1 && b1 ≤ 0x9F)
            else contByte b1) && contByte b2 then
          Char.ofNat ((b - 0xE0) * 0x1000 + (b1 - 0x80) * 0x40 + (b2 - 0x80)) ::
            utf8ReplaceList bs2
        else Char.ofNat 0xFFFD :: utf8ReplaceList (b1 :: b2 :: bs2)
      | [b1] => Char.ofNat 0xFFFD :: utf8ReplaceList [b1]
      | [] => [Char.ofNat 0xFFFD]
    else if b < 0xF5 then
      match bs with
      | b1 :: b2 :: b3 :: bs3 =>
        if (if b = 0xF0 then decide (0x90 ≤ b1 && b1 ≤ 0xBF)
            else if b = 0xF4 then decide (0x80 ≤ b1 && b1 ≤ 0x8F)
            else contByte b1) && contByte b2 && contByte b3 then
          Char.ofNat ((b - 0xF0) * 0x40000 + (b1 - 0x80) * 0x1000 +
            (b2 - 0x80) * 0x40 + (b3 - 0x80)) :: utf8ReplaceList bs3
        else Char.ofNat 0xFFFD :: utf8ReplaceList (b1 :: b2 :: b3 :: bs3)
      | [b1, b2] => Char.ofNat 0xFFFD :: utf8ReplaceList [b1, b2]
      | [b1] => Char.ofNat 0xFFFD :: utf8ReplaceList [b1]
      | [] => [Char.ofNat 0xFFFD]
    else Char.ofNat 0xFFFD :: utf8ReplaceList bs
  termination_by l => l.length
  decreasing_by all_goals (simp only [List.length_cons]; omega)

/-- UTF-8 encoding of one character. -/
def utf8EncodeChar (c : Char) : List Nat :=
  let n := c.toNat
  if n < 0x80 then [n]
  else if n < 0x800 then [0xC0 + n / 0x40, 0x80 + n % 0x40]
  else if n < 0x10000 then
    [0xE0 + n / 0x1000, 0x80 + (n / 0x40) % 0x40, 0x80 + n % 0x40]
  else
    [0xF0 + n / 0x40000, 0x80 + (n / 0x1000) % 0x40, 0x80 + (n / 0x40) % 0x40,
      0x80 + n % 0x40]

/-- UTF-8 encoding of a string (`str.encode('utf-8', 'replace')`; Lean strings
contain no lone surrogates, so the replacement handler never fires). -/
def utf8Encode (s : String) : List Nat := (s.toList.map utf8EncodeChar).flatten

/-- Valid GBK trail byte: 0x40-0xFE excluding 0x7F. -/
def gbkTrail (b : Nat) : Bool := 0x40 ≤ b && b ≤ 0xFE && b ≠ 0x7F

/-- Structural model of the character a GBK lead/trail pair decodes to:
an injective map into the private use area (the real GBK table is an external
codec; only decodability matters to the claims). -/
def gbkPairChar (b b1 : Nat) : Char := Char.ofNat (0xE000 + (b - 0x81) * 0xBF + (b1 - 0x40))

/-- Strict GBK decoding, structural model: ASCII bytes decode to themselves,
a lead byte 0x81-0xFE must be followed by a trail byte 0x40-0xFE (not 0x7F);
anything else (including a lone 0x80 or 0xFF) fails. -/
def gbkDecodeList : List Nat → Option (List Char)
  | [] => some []
  | b :: bs =>
    if b < 0x80 then
      match gbkDecodeList bs with
      | some cs => some (Char.ofNat b :: cs)
      | none => none
    else if 0x81 ≤ b && b ≤ 0xFE then
      match bs with
      | b1 :: bs1 =>
        if gbkTrail b1 then
          match gbkDecodeList bs1 with
          | some cs => some (gbkPairChar b b1 :: cs)
          | none => none
        else none
      | [] => none
    else none

/-- Structural model of a GB18030 four-byte unit's character. -/
def gb18030QuadChar (b b1 b2 b3 : Nat) : Char :=
  Char.ofNat (0x10000 +
    ((b - 0x81) * 12600 + (b1 - 0x30) * 1260 + (b2 - 0x81) * 10 + (b3 - 0x30)) % 0xF0000)

/-- Strict GB18030 decoding, structural model: GBK two-byte units plus
four-byte units lead 0x81-0xFE, then 0x30-0x39, then 0x81-0xFE, then 0x30-0x39. -/
def gb18030DecodeList : List Nat → Option (List Char)
  | [] => some []
  | b :: bs =>
    if b < 0x80 then
      match gb18030DecodeList bs with
      | some cs => some (Char.ofNat b :: cs)
      | none => none
    else if 0x81 ≤ b && b ≤ 0xFE then
      match bs with
      | b1 :: bs1 =>
        if gbkTrail b1 then
          match gb18030DecodeList bs1 with
          | some cs => some (gbkPairChar b b1 :: cs)
          | none => none
        else if 0x30 ≤ b1 && b1 ≤ 0x39 then
          match bs1 with
          | b2 :: b3 :: bs3 =>
            if (0x81 ≤ b2 && b2 ≤ 0xFE) && (0x30 ≤ b3 && b3 ≤ 0x39) then
              match gb18030DecodeList bs3 with
              | some cs => some (gb18030QuadChar b b1 b2 b3 :: cs)
              | none => none
            else none
          | _ => none
        else none
      | [] => none
    else none

/-- Valid Big5 trail byte: 0x40-0x7E or 0xA1-0xFE. -/
def big5Trail (b : Nat) : Bool := (0x40 ≤ b && b ≤ 0x7E) || (0xA1 ≤ b && b ≤ 0xFE)

/-- Strict Big5 decoding, structural model: lead 0xA1-0xF9 plus a Big5 trail. -/
def big5DecodeList : List Nat → Option (List Char)
  | [] => some []
  | b :: bs =>
    if b < 0x80 then
      match big5DecodeList bs with
      | some cs => some (Char.ofNat b :: cs)
      | none => none
    else if 0xA1 ≤ b && b ≤ 0xF9 then
      match bs with
      | b1 :: bs1 =>
        if big5Trail b1 then
          match big5DecodeList bs1 with
          | some cs => some (Char.ofNat (0xF0000 + (b - 0xA1) * 0xBF + (b1 - 0x40)) :: cs)
          | none => none
        else none
      | [] => none
    else none

/-- Latin-1 decoding: total, every byte 0-255 maps to the code point of the
same value (this is why latin-1 is the guaranteed fallback). -/
def latin1DecodeList (bs : List Nat) : List Char := bs.map Char.ofNat

/-- Strict ASCII decoding: fails on any byte at or above 0x80. -/
def asciiDecodeList : List Nat → Option (List Char)
  | [] => some []
  | b :: bs =>
    if b < 0x80 then
      match asciiDecodeList bs with
      | some cs => some (Char.ofNat b :: cs)
      | none => none
    else none

/-- Python-style codec name normalization used by codec lookup:
case-insensitive, spaces and underscores fold to hyphens. -/
def normalizeCodecName (s : String) : String :=
  String.mk ((strToLower s).toList.map fun c => if c = '_' || c = ' ' then '-' else c)

/-- Codec registry used by `bytes.decode` in the model: maps an encoding label
to a strict decoder.  `none` models LookupError (unknown codec).  The registry
covers the labels this program produces or normalizes; Python knows more
aliases, but an unknown label failing with LookupError is exactly how the
source treats them (caught together with UnicodeDecodeError). -/
def lookupCodecNorm (n : String) : Option (List Nat → Option (List Char)) :=
  if n = "utf-8" || n = "utf8" || n = "u8" then some utf8DecodeList
  else if n = "gbk" || n = "cp936" || n = "gb2312" then some gbkDecodeList
  else if n = "gb18030" then some gb18030DecodeList
  else if n = "big5" || n = "cp950" then some big5DecodeList
  else if n = "latin-1" || n = "latin1" || n = "latin" || n = "l1" ||
      n = "iso-8859-1" || n = "iso8859-1" || n = "8859" || n = "cp819" then
    some (fun bs => some (latin1DecodeList bs))
  else if n = "ascii" || n = "us-ascii" then some asciiDecodeList
  else none

/-- Codec lookup proper: normalize the label, then consult the table. -/
def lookupCodec (label : String) : Option (List Nat → Option (List Char)) :=
  lookupCodecNorm (normalizeCodecName label)

/-- Model of `content.decode(encoding, errors='strict')`: `none` models either
UnicodeDecodeError or LookupError (the source catches both together). -/
def strictDecode (encoding : String) (content : List Nat) : Option String :=
  match lookupCodec encoding with
  | some d =>
    match d content with
    | some cs => some (String.mk cs)
    | none => none
  | none => none

/-- Model of `content.decode('utf-8', errors='replace')`: total. -/
def utf8ReplaceDecode (content : List Nat) : String := String.mk (utf8ReplaceList content)

/-! ## Encoding detector (src/xthttp/resp/encoding.py)

The chardet library is external and statistical; it is modelled as an oracle
parameter `List Nat → Option String` standing for "the suggestion
`_detect_with_chardet` accepts from `chardet.detect` (label truthy and
confidence above 0.6), or `none`" — an oracle constantly `none` also models
chardet being unavailable (`_chardet_available = False`).  The sha256 keyed
result cache is behaviour-preserving for a deterministic oracle and is not
modelled. -/

/-- ASCII byte codes of a string (used for fixed byte patterns). -/
def keyBytes (s : String) : List Nat := s.toList.map Char.toNat

/-- Model of `bytes.lower()`: lowercases ASCII A-Z only. -/
def bytesLower (l : List Nat) : List Nat :=
  l.map fun b => if 0x41 ≤ b && b ≤ 0x5A then b + 0x20 else b

/-- A byte matched by the regex class `\s` in bytes mode. -/
def isSpaceByte (b : Nat) : Bool :=
  b = 0x20 || b = 0x09 || b = 0x0A || b = 0x0D || b = 0x0C || b = 0x0B

/-- A byte matched by the regex class `[\w-]` in bytes mode. -/
def wordHyByte (b : Nat) : Bool :=
  (0x61 ≤ b && b ≤ 0x7A) || (0x41 ≤ b && b ≤ 0x5A) ||
    (0x30 ≤ b && b ≤ 0x39) || b = 0x5F || b = 0x2D

/-- Strip a literal byte sequence from the front of a list. -/
def stripKey : List Nat → List Nat → Option (List Nat)
  | [], rest => some rest
  | _ :: _, [] => none
  | k :: ks, b :: rest => if b = k then stripKey ks rest else none

/-- Match the regex `key\s*=\s*["\']?\s*([\w-]+)` anchored at the head of `l`,
returning the captured group.  The regex is deterministic here: the greedy
`\s*`, the optional quote and the greedy group never need backtracking since
their byte classes are pairwise disjoint from what must follow. -/
def matchKeyAt (key : List Nat) (l : List Nat) : Option (List Nat) :=
  match stripKey key l with
  | none => none
  | some r1 =>
    match r1.dropWhile isSpaceByte with
    | 0x3D :: r3 =>
      let r4 := r3.dropWhile isSpaceByte
      let r5 := match r4 with
        | q :: rest => if q = 0x22 || q = 0x27 then rest else r4
        | [] => r4
      let grp := (r5.dropWhile isSpaceByte).takeWhile wordHyByte
      if grp.isEmpty then none else some grp
    | _ => none

/-- Model of `re.search` for the pattern above: leftmost match wins. -/
def searchKey (key : List Nat) : List Nat → Option (List Nat)
  | [] => none
  | b :: rest =>
    match matchKeyAt key (b :: rest) with
    | some g => some g
    | none => searchKey key rest

/-- Model of `match.group(1).decode('ascii', errors='ignore').lower().replace('_','-')`
for a captured group (all group bytes are ASCII word bytes or hyphens, and the
sample was already lowercased). -/
def normalizeGroup (g : List Nat) : String :=
  String.mk (g.map fun b => if b = 0x5F then '-' else Char.ofNat b)

/-- The CHINESE_ENCODINGS set from encoding.py. -/
def CHINESE_ENCODINGS : List String := ["utf-8", "gbk", "gb18030", "big5", "gb2312"]

/-- The CHINESE_DOMAINS set from encoding.py. -/
def CHINESE_DOMAINS : List String :=
  ["baidu.com", "sina.com", "163.com", "qq.com", "alibaba.com", "taobao.com",
    "jd.com", "sohu.com", "zhihu.com", "weibo.com"]

/-- Declared-label normalization inside `_extract_encoding_from_content`:
utf8/utf8mb4 fold to utf-8, gb2312 to gbk, other recognized Chinese encodings
pass through, everything else is rejected. -/
def normalizeDeclared (enc : String) : Option String :=
  if enc = "utf8" || enc = "utf8mb4" then some "utf-8"
  else if enc = "gb2312" then some "gbk"
  else if CHINESE_ENCODINGS.contains enc then some enc
  else none

/-- One pattern pass of `_extract_encoding_from_content`: search the sample,
normalize the captured label, reject unrecognized labels. -/
def tryDeclPattern (key sample : List Nat) : Option String :=
  match searchKey key sample with
  | some g => normalizeDeclared (normalizeGroup g)
  | none => none

/-- Embedding of `EncodingDetector._extract_encoding_from_content`: scan the lowercased
first 2 KB for `charset=...` first, then `encoding=...`. -/
def extract_encoding_from_content (content : List Nat) : Option String :=
  if content.isEmpty then none
  else
    let sample := bytesLower (content.take 2048)
    match tryDeclPattern (keyBytes "charset") sample with
    | some e => some e
    | none => tryDeclPattern (keyBytes "encoding") sample

/-- Embedding of `EncodingDetector._detect_with_chardet`: consult the oracle on the first
64 KB and normalize its label (the cache layer is behaviour-preserving). -/
def detect_with_chardet (oracle : List Nat → Option String)
    (content : List Nat) : Option String :=
  match oracle (content.take 65536) with
  | some enc =>
    let e := strToLower enc
    if e = "utf8" || e = "utf8mb4" then some "utf-8"
    else if e = "gb2312" then some "gbk"
    else some e
  | none => none

/-- Python's substring containment test `pat in l`, on lists. -/
def containsSeq {α : Type} [BEq α] (pat l : List α) : Bool :=
  l.tails.any fun t => pat.isPrefixOf t

/-- Embedding of `EncodingDetector._is_chinese_domain`. -/
def is_chinese_domain (url : String) : Bool :=
  if url.isEmpty then false
  else CHINESE_DOMAINS.any fun d => containsSeq d.toList (strToLower url).toList

/-- The literal high-frequency Chinese byte patterns from `_has_chinese_content`. -/
def chinesePatterns : List (List Nat) :=
  [[0xE4, 0xBD, 0xA0, 0xE5, 0xA5, 0xBD], [0xE4, 0xB8, 0xAD, 0xE5, 0x9B, 0xBD],
    [0xE4, 0xB8, 0xAD, 0xE6, 0x96, 0x87], [0xE7, 0x9A, 0x84], [0xE6, 0x98, 0xAF]]

/-- Does some window of three consecutive bytes satisfy the three predicates?
(models `re.search` for a three-byte-class regex). -/
def hasTriple (p q r : Nat → Bool) : List Nat → Bool
  | a :: b :: c :: rest => (p a && q b && r c) || hasTriple p q r (b :: c :: rest)
  | _ => false

/-- Does some window of two consecutive bytes satisfy the two predicates? -/
def hasPair (p q : Nat → Bool) : List Nat → Bool
  | a :: b :: rest => (p a && q b) || hasPair p q (b :: rest)
  | _ => false

/-- Embedding of `EncodingDetector._has_chinese_content`: literal patterns, then the UTF-8
CJK regex, then the GBK high-byte regex, over the first 4 KB. -/
def has_chinese_content (content : List Nat) : Bool :=
  if content.isEmpty then false
  else
    let sample := content.take 4096
    if chinesePatterns.any fun p => containsSeq p sample then true
    else if hasTriple (fun b => b = 0xE4) (fun b => 0xB8 ≤ b && b ≤ 0xBF)
        (fun b => 0x80 ≤ b && b ≤ 0xBF) sample then true
    else hasPair (fun b => 0xB0 ≤ b && b ≤ 0xF7) (fun b => 0xA1 ≤ b && b ≤ 0xFE) sample

/-- Embedding of `EncodingDetector._can_decode`: strict decode succeeds (UnicodeDecodeError
and LookupError both give `False`). -/
def can_decode (content : List Nat) (encoding : String) : Bool :=
  (strictDecode encoding content).isSome

/-- Embedding of `EncodingDetector._detect_by_heuristics`. -/
def detect_by_heuristics (content : List Nat) (url : String) : String :=
  let chinese := has_chinese_content content || is_chinese_domain url
  if chinese then
    if can_decode content "utf-8" then "utf-8"
    else if can_decode content "gbk" then "gbk"
    else if can_decode content "gb18030" then "gb18030"
    else if can_decode content "utf-8" then "utf-8"
    else "latin-1"
  else if can_decode content "utf-8" then "utf-8"
  else "latin-1"

/-- DEFAULT_ENCODING from adapters.py. -/
def DEFAULT_ENCODING : String := "utf-8"

/-- Embedding of `EncodingDetector.detect_encoding`: empty content short-circuits to the
default; then declared extraction, then chardet, then heuristics. -/
def detect_encoding (oracle : List Nat → Option String)
    (content : List Nat) (url : String) : String :=
  if content.isEmpty then DEFAULT_ENCODING
  else
    match extract_encoding_from_content content with
    | some e => e
    | none =>
      match detect_with_chardet oracle content with
      | some e => e
      | none => detect_by_heuristics content url

/-- The fallback loop of `EncodingDetector.decode_content`: try each fallback
label in order, skipping the label equal to the requested encoding. -/
def tryFallbacks (content : List Nat) (encoding : String) : List String → Option String
  | [] => none
  | fb :: rest =>
    if fb ≠ encoding then
      match strictDecode fb content with
      | some s => some s
      | none => tryFallbacks content encoding rest
    else tryFallbacks content encoding rest

/-- Embedding of `EncodingDetector.decode_content`: empty content gives the empty string;
otherwise strict decode with the requested encoding, then the fallback loop
over utf-8, gbk, latin-1, then lossy utf-8.  (The source's final
`latin-1, errors='replace'` line is unreachable because lossy utf-8 decoding
is total, which the model's total `utf8ReplaceDecode` mirrors.) -/
def decode_content (content : List Nat) (encoding : String) : String :=
  if content.isEmpty then ""
  else
    match strictDecode encoding content with
    | some s => s
    | none =>
      match tryFallbacks content encoding ["utf-8", "gbk", "latin-1"] with
      | some s => s
      | none => utf8ReplaceDecode content

/-- Modelled from the spec: the attempt order of the decode-with-fallback
contract, written as one candidate list — the requested encoding first, then
utf-8, gbk, latin-1 with the already-tried label skipped. -/
def specAttemptOrder (encoding : String) : List String :=
  encoding :: (["utf-8", "gbk", "latin-1"].filter fun e => e ≠ encoding)

/-- First successful strict decode among a list of candidate labels. -/
def firstSuccess (content : List Nat) : List String → Option String
  | [] => none
  | e :: rest =>
    match strictDecode e content with
    | some s => some s
    | none => firstSuccess content rest

/-- Modelled from the spec: decode-with-fallback as the first success in the
spec's attempt order, with lossy utf-8 as the guaranteed last resort. -/
def decodeSpec (content : List Nat) (encoding : String) : String :=
  match firstSuccess content (specAttemptOrder encoding) with
  | some s => s
  | none => utf8ReplaceDecode content

/-! ## Unified response object (src/xthttp/resp/unified_resp.py)

A raw transport response is an arbitrary Python object; the model records
exactly the observations `UnifiedResp` makes of it: the status value its
attributes yield, whether it exposes a native `raise_for_status` and whether
that call raises, what calling its `json` attribute does, and the bytes the
adapter's `get_content` extracts from it. -/

/-- The Python exception classes distinguished by `UnifiedResp.json`'s
`except (ValueError, TypeError, AttributeError)` clause. -/
inductive PyExcKind where
  | valueError
  | typeError
  | attributeError
  | other
deriving DecidableEq

/-- A JSON value (result type of the JSON parser model). -/
inductive JsonVal where
  | null
  | bool (b : Bool)
  | num (n : Int)
  | str (s : String)
  | arr (xs : List JsonVal)
  | obj (kvs : List (String × JsonVal))

/-- Behaviour of evaluating `raw.json()` on a raw response object: the
attribute may be missing, the call may return a value, or it may raise. -/
inductive JsonMethod where
  | absent
  | value (v : JsonVal)
  | raises (k : PyExcKind)

/-- Model of a raw transport response object as `UnifiedResp` observes it.
`status` is the value the `status`/`status_code` attribute lookup yields
(`none`: neither attribute exists, so the sentinel 999 applies); `content`
is the byte payload the adapter's `get_content` extracts. -/
structure RawResp where
  status : Option Nat
  hasNativeRaise : Bool
  nativeRaises : Bool
  jsonMethod : JsonMethod
  content : List Nat

/-- The `content` constructor argument of `UnifiedResp` (`str | bytes | None`). -/
inductive ContentData where
  | str (s : String)
  | bytes (bs : List Nat)
  | absent

/-- The state of a constructed `UnifiedResp`: the raw object, whether an
adapter wraps it, the processed byte content, the URL, the encoding fixed by
`__init__`, and the index. -/
structure UnifiedResp where
  raw : Option RawResp
  hasAdapter : Bool
  content : List Nat
  url : String
  encoding : String
  index : Nat

/-- Embedding of `UnifiedResp._process_content`: a string is utf-8 encoded, bytes pass
through, otherwise the adapter's raw content (empty without an adapter or
when the adapter wraps `None`). -/
def process_content (raw : Option RawResp) (hasAdapter : Bool) : ContentData → List Nat
  | .str s => utf8Encode s
  | .bytes bs => bs
  | .absent =>
    if hasAdapter then
      match raw with
      | some r => r.content
      | none => []
    else []

/-- Embedding of `UnifiedResp.__init__`: processes the content and eagerly fixes
`_encoding := detect_encoding(content, url)`. -/
def mkUnifiedResp (oracle : List Nat → Option String) (raw : Option RawResp)
    (hasAdapter : Bool) (c : ContentData) (index : Nat) (url : String) : UnifiedResp :=
  let content := process_content raw hasAdapter c
  { raw := raw, hasAdapter := hasAdapter, content := content, url := url,
    encoding := detect_encoding oracle content url, index := index }

/-- Embedding of `UnifiedResp.status`: both the adapter path and the reflection fallback
read the raw object's status attribute and default to the sentinel 999 when
the raw object is `None` or has no status attribute. -/
def UnifiedResp.status (r : UnifiedResp) : Nat :=
  match r.raw with
  | some raw => raw.status.getD 999
  | none => 999

/-- Embedding of `UnifiedResp.ok`: `200 <= self.status < 300`. -/
def UnifiedResp.ok (r : UnifiedResp) : Bool :=
  200 ≤ r.status && r.status < 300

/-- Embedding of `UnifiedResp.__bool__`: `self.status == 200`. -/
def UnifiedResp.toBool (r : UnifiedResp) : Bool :=
  r.status == 200

/-- What `raise_for_status` raises: the native check's exception, or the
fallback `HttpError` carrying the status. -/
inductive StatusFailure where
  | native
  | httpError (status : Nat)
deriving DecidableEq

/-- Embedding of `UnifiedResp.raise_for_status`: if the adapter exposes a truthy
`raw_response` with a native `raise_for_status`, delegate to it and return;
otherwise raise `HttpError(self)` exactly when not `ok`. -/
def UnifiedResp.raise_for_status (r : UnifiedResp) : Except StatusFailure Unit :=
  match (if r.hasAdapter then r.raw else none) with
  | some raw =>
    if raw.hasNativeRaise then
      if raw.nativeRaises then .error .native else .ok ()
    else if r.ok then .ok () else .error (.httpError r.status)
  | none => if r.ok then .ok () else .error (.httpError r.status)

/-- Embedding of `UnifiedResp.text`: `_content` is always bytes (`_process_content`
guarantees it), so the property always takes the `decode_content` branch;
the `str` and raw-reflection branches of the source are unreachable. -/
def UnifiedResp.text (r : UnifiedResp) : String :=
  decode_content r.content r.encoding

/-- A property access in a call sequence on one `UnifiedResp` instance. -/
inductive RespCall where
  | textProp
  | encodingProp
deriving DecidableEq

/-- Execute one property access: the returned value plus the (unchanged)
object state — neither property assigns to `self`. -/
def UnifiedResp.runCall (r : UnifiedResp) : RespCall → String × UnifiedResp
  | .textProp => (r.text, r)
  | .encodingProp => (r.encoding, r)

/-- Execute a sequence of property accesses, threading the object state and
collecting the returned values. -/
def UnifiedResp.runCalls (r : UnifiedResp) : List RespCall → List String × UnifiedResp
  | [] => ([], r)
  | c :: cs =>
    let p := r.runCall c
    let q := p.2.runCalls cs
    (p.1 :: q.1, q.2)

/-- Is this exception class caught by `except (ValueError, TypeError,
AttributeError)`? -/
def caughtByJson : PyExcKind → Bool
  | .valueError => true
  | .typeError => true
  | .attributeError => true
  | .other => false

/-- The text stage of the `json` property: parse non-empty `text` with
`json.loads` (whose ValueError is caught), else return the empty object. -/
def textStageJson (loads : String → Option JsonVal) (r : UnifiedResp) : JsonVal :=
  if r.text ≠ "" then (loads r.text).getD (JsonVal.obj []) else JsonVal.obj []

/-- Embedding of `UnifiedResp.json`: try `raw.json()` first, catching only ValueError,
TypeError and AttributeError; then parse non-empty `text`, catching ValueError
and TypeError from `json.loads`; else return the empty object.  `loads` is the
stdlib `json.loads` modelled as an oracle returning `none` for a ValueError. -/
def UnifiedResp.json (loads : String → Option JsonVal) (r : UnifiedResp) :
    Except PyExcKind JsonVal :=
  match r.raw with
  | some raw =>
    match raw.jsonMethod with
    | .absent => .ok (textStageJson loads r)
    | .value v => .ok v
    | .raises k =>
      if caughtByJson k then .ok (textStageJson loads r) else .error k
  | none => .ok (textStageJson loads r)

/-- A concrete fixture: a response wrapping a raw object with the given
status, native-raise behaviour and json behaviour (used by witnesses and
counterexamples). -/
def sampleResp (st : Nat) (hasRaise native : Bool) (jm : JsonMethod) : UnifiedResp :=
  UnifiedResp.mk (some (RawResp.mk (some st) hasRaise native jm [])) true [] "" "utf-8" 0

/-- A concrete fixture: a response with no raw object and no adapter. -/
def bareResp : UnifiedResp :=
  UnifiedResp.mk none false [] "" "utf-8" 0

/-! ## Batch request engine (src/xthttp/ahttp.py)

The network is modelled by an `exec` parameter giving each task's terminal
outcome for its (index, url) — the `UnifiedResp`, or the exception captured
as a value by `asyncio.gather(..., return_exceptions=True)` once
`spider_retry` has exhausted its attempts.  Completion order of concurrently
gathered tasks is modelled by a `reorder` parameter permuting the write-back
sequence; the theorems quantify over it. -/

/-- An element of the `urls` argument of `multi_parse`: a Python string, or
any non-string object a caller passes. -/
inductive UrlInput where
  | str (s : String)
  | nonStr
deriving DecidableEq

/-- Whitespace stripped by Python's `str.strip` (the ASCII whitespace
characters; the model restricts URLs to these). -/
def pyIsSpace (c : Char) : Bool :=
  c = ' ' || c = '\t' || c = '\n' || c = '\r' || c = '\x0b' || c = '\x0c'

/-- Truthiness of `url.strip()`: the string contains a non-whitespace
character. -/
def hasNonSpace (s : String) : Bool := s.toList.any fun c => !pyIsSpace c

/-- An entry of the `valid_urls` list built by `multi_parse`: the URL string,
or the ValueError object recorded for an invalid input. -/
inductive UrlEntry where
  | url (s : String)
  | invalid (u : UrlInput)
deriving DecidableEq

/-- How the pre-pass of `multi_parse` treats one input: an input that is not
a string, or whose `strip()` is empty, becomes a ValueError marker; valid
strings pass through. -/
def validatedEntry : UrlInput → UrlEntry
  | .str s => if hasNonSpace s then .url s else .invalid (.str s)
  | .nonStr => .invalid .nonStr

/-- The pre-pass of `multi_parse` over the whole list: length and positions
are preserved. -/
def validateUrls (urls : List UrlInput) : List UrlEntry :=
  urls.map validatedEntry

/-- A cell of a batch result list (`UnifiedResp | BaseException | None`). -/
inductive BatchCell (ρ : Type) where
  | pending
  | invalidUrl (u : UrlInput)
  | outcome (r : ρ)

/-- Embedding of `valid_tasks` of `multi_request`/`batch_request`: the (original index,
url) pairs of valid entries, enumerating from position `k`. -/
def validTasksFrom (k : Nat) : List UrlEntry → List (Nat × String)
  | [] => []
  | .url s :: rest => (k, s) :: validTasksFrom (k + 1) rest
  | .invalid _ :: rest => validTasksFrom (k + 1) rest

/-- Embedding of `invalid_indices`: positions of invalid entries with their markers,
enumerating from position `k`. -/
def invalidFrom (k : Nat) : List UrlEntry → List (Nat × UrlInput)
  | [] => []
  | .url _ :: rest => invalidFrom (k + 1) rest
  | .invalid u :: rest => (k, u) :: invalidFrom (k + 1) rest

/-- Pre-set the ValueError objects at their original positions
(`results[index] = error`). -/
def setInvalids {ρ : Type} (cells : List (BatchCell ρ)) (l : List (Nat × UrlInput)) :
    List (BatchCell ρ) :=
  l.foldl (fun acc p => acc.set p.1 (.invalidUrl p.2)) cells

/-- The gather write-back loop: each completed task's outcome is stored at the
task's original index (`results[original_index] = batch_results[j]`). -/
def writeOutcomes {ρ : Type} (exec : Nat → String → ρ) (cells : List (BatchCell ρ))
    (tasks : List (Nat × String)) : List (BatchCell ρ) :=
  tasks.foldl (fun acc t => acc.set t.1 (.outcome (exec t.1 t.2))) cells

/-- Embedding of `AsyncHttpClient.multi_request` on a pre-validated entry list: one shared
session, all valid tasks gathered at once under the semaphore, outcomes
written back by original index. -/
def multi_request {ρ : Type} (exec : Nat → String → ρ)
    (reorder : List (Nat × String) → List (Nat × String))
    (entries : List UrlEntry) : List (BatchCell ρ) :=
  let results := setInvalids (List.replicate entries.length .pending) (invalidFrom 0 entries)
  writeOutcomes exec results (reorder (validTasksFrom 0 entries))

/-- Worker for `chunksOf`: `cur` is the current chunk reversed, `c` the
remaining capacity of the current chunk. -/
def chunksAux {α : Type} (k : Nat) : List α → Nat → List α → List (List α)
  | [], _, cur => if cur.isEmpty then [] else [cur.reverse]
  | a :: rest, c, cur =>
    if c = 0 then cur.reverse :: chunksAux k rest (k - 1) [a]
    else chunksAux k rest (c - 1) (a :: cur)

/-- The `batched` helper inside `batch_request`: consecutive chunks of at most
`k` elements.  (Python's generator loops forever at `k = 0`; this model then
degrades to chunks of one, and the batch theorems assume `0 < k`.) -/
def chunksOf {α : Type} (k : Nat) (l : List α) : List (List α) :=
  chunksAux k l k []

/-- Embedding of `AsyncHttpClient.batch_request` on a pre-validated entry list: same
pre-pass write-back, then the valid tasks processed chunk by chunk, each chunk
gathered concurrently. -/
def batch_request {ρ : Type} (exec : Nat → String → ρ) (k : Nat)
    (reorder : List (Nat × String) → List (Nat × String))
    (entries : List UrlEntry) : List (BatchCell ρ) :=
  let results := setInvalids (List.replicate entries.length .pending) (invalidFrom 0 entries)
  (chunksOf k (validTasksFrom 0 entries)).foldl
    (fun acc chunk => writeOutcomes exec acc (reorder chunk)) results

/-- REQUEST_METHODS from ahttp.py. -/
def REQUEST_METHODS : List String :=
  ["get", "post", "head", "options", "put", "delete", "trace", "connect", "patch"]

/-- A validation error raised synchronously at configuration time. -/
inductive ValidationError where
  | invalidUrl (url : String)
  | unknownMethod (m : String)
deriving DecidableEq

/-- Embedding of `ahttp.single_parse`: URL check, then method check, then the network call.
`runNet` abstracts `asyncio.run(_default_client.request(method, url))`; the
theorems quantify over it, so a validation error is produced whatever the
network would do. -/
def single_parse {ρ : Type} (runNet : String → String → ρ) (method url : String) :
    Except ValidationError ρ :=
  if !hasNonSpace url then .error (.invalidUrl url)
  else if !REQUEST_METHODS.contains (strToLower method) then .error (.unknownMethod method)
  else .ok (runNet method url)

/-- Embedding of `ahttp.multi_parse`: an empty URL list returns `[]` immediately; otherwise
the pre-pass, then the method check, then one of the two batch modes selected
by `force_sequential`. -/
def multi_parse {ρ : Type} (exec : Nat → String → ρ)
    (reorder : List (Nat × String) → List (Nat × String)) (k : Nat)
    (method : String) (urls : List UrlInput) (forceSequential : Bool) :
    Except ValidationError (List (BatchCell ρ)) :=
  if urls.isEmpty then .ok []
  else
    let entries := validateUrls urls
    if !REQUEST_METHODS.contains (strToLower method) then .error (.unknownMethod method)
    else .ok (if forceSequential then multi_request exec reorder entries
      else batch_request exec k reorder entries)

/-- The result cell a batch run stores for one processed entry: the task's
outcome for a valid url, the pre-pass ValueError marker for an invalid one. -/
def cellOfEntry {ρ : Type} (exec : Nat → String → ρ) (i : Nat) : UrlEntry → BatchCell ρ
  | .url s => .outcome (exec i s)
  | .invalid u => .invalidUrl u

/-- The cell the batch contract predicts at position `i` for input `u`: the
task's outcome for a string with a non-whitespace character, and the
pre-pass's ValueError marker otherwise. -/
def expectedCell {ρ : Type} (exec : Nat → String → ρ) (i : Nat) : UrlInput → BatchCell ρ
  | .str s => if hasNonSpace s then .outcome (exec i s) else .invalidUrl (.str s)
  | .nonStr => .invalidUrl .nonStr

/-! ## Admission gate (src/xthttp/ahttp.py, `_request_with_semaphore`)

A cooperative small-step model of `asyncio.Semaphore` as both batch modes use
it: every task body is wrapped in `async with self.semaphore`, so a task
acquires the gate before sending and releases it on every exit path. -/

/-- Phase of one batch task with respect to the admission gate. -/
inductive TaskPhase where
  | idle
  | running
  | done
deriving DecidableEq

/-- Scheduler state: the semaphore counter plus each task's phase. -/
structure SchedState where
  sem : Nat
  tasks : List TaskPhase

/-- One cooperative transition of `_request_with_semaphore`: `acquire` admits
an idle task when the counter is positive (acquire-before-send); `finish`
completes a running task — normally or by raising — and releases the gate
(the `async with` block releases on every exit path). -/
inductive SchedStep : SchedState → SchedState → Prop where
  | acquire (s : SchedState) (i : Nat) (hi : s.tasks[i]? = some .idle)
      (hs : 0 < s.sem) :
      SchedStep s ⟨s.sem - 1, s.tasks.set i .running⟩
  | finish (s : SchedState) (i : Nat) (hi : s.tasks[i]? = some .running) :
      SchedStep s ⟨s.sem + 1, s.tasks.set i .done⟩

/-- Initial state of a batch run: `asyncio.Semaphore(max_concurrent)` full
(`k` permits), all `n` tasks idle. -/
def initSched (k n : Nat) : SchedState := ⟨k, List.replicate n .idle⟩

/-- States reachable in a batch run with ceiling `k` and `n` tasks. -/
inductive SchedReachable (k n : Nat) : SchedState → Prop where
  | init : SchedReachable k n (initSched k n)
  | step {s t : SchedState} : SchedReachable k n s → SchedStep s t → SchedReachable k n t

/-- Number of tasks currently in flight. -/
def inflight (s : SchedState) : Nat :=
  s.tasks.countP fun t => t == TaskPhase.running

/-- The spec's premise for the declared-utf-8 property: somewhere in the
lowercased first 2 KB the charset or encoding declaration pattern matches with
a captured label that normalizes to utf-8. -/
def hasUtf8DeclarationIn2KB (content : List Nat) : Bool :=
  (bytesLower (content.take 2048)).tails.any fun t =>
    (match matchKeyAt (keyBytes "charset") t with
     | some g => decide (normalizeDeclared (normalizeGroup g) = some "utf-8")
     | none => false) ||
    (match matchKeyAt (keyBytes "encoding") t with
     | some g => decide (normalizeDeclared (normalizeGroup g) = some "utf-8")
     | none => false)

/-! ## Theorems -/

/-- The empty byte list strictly decodes to the empty string under any known
codec, and unknown labels fail with LookupError. -/
theorem strictDecode_nil (enc : String) :
    strictDecode enc [] = some "" ∨ strictDecode enc [] = none := by
  unfold strictDecode
  cases h : lookupCodec enc with
  | none => right; rfl
  | some d =>
    left
    have hd : d [] = some [] := by
      unfold lookupCodec lookupCodecNorm at h
      split_ifs at h <;> (injection h with h2; rw [← h2]; rfl)
    show (match d [] with
      | some cs => some (String.mk cs)
      | none => none) = some ""
    rw [hd]

/-- The source's skip-by-label fallback loop equals first-success over the
filtered candidate list. -/
theorem tryFallbacks_eq_firstSuccess (content : List Nat) (enc : String)
    (lst : List String) :
    tryFallbacks content enc lst = firstSuccess content (lst.filter fun e => e ≠ enc) := by
  induction lst with
  | nil => rfl
  | cons fb rest ih =>
    by_cases h : fb = enc
    · subst h
      simp [tryFallbacks, List.filter_cons, ih]
    · simp only [tryFallbacks, List.filter_cons, firstSuccess, ne_eq, h,
        not_false_eq_true, if_true, ih, decide_not]

/-- Empty content first-succeeds in the spec's attempt order with the empty
string (some candidate always strictly decodes the empty byte list). -/
theorem firstSuccess_nil_spec (enc : String) :
    firstSuccess [] (specAttemptOrder enc) = some "" := by
  rcases strictDecode_nil enc with h | h
  · simp [specAttemptOrder, firstSuccess, h]
  · have hne : enc ≠ "utf-8" := by
      intro he
      rw [he, show strictDecode "utf-8" ([] : List Nat) = some "" from rfl] at h
      cases h
    have hu : strictDecode "utf-8" ([] : List Nat) = some "" := rfl
    simp [specAttemptOrder, firstSuccess, h, List.filter_cons, Ne.symm hne, hu]

/-- Claim C2: for every byte sequence and every requested encoding label
(unknown or malformed included), `decode_content` returns a string — it is a
total function, never raising — and its value is the first success of the
spec's fallback chain: strict decode with the requested label, then utf-8,
gbk, latin-1 in turn skipping the label already tried, then lossy utf-8
(latin-1 being unreachable after a total lossy decode). -/
theorem decode_content_follows_fallback_chain (content : List Nat) (encoding : String) :
    decode_content content encoding = decodeSpec content encoding := by
  by_cases hc : content.isEmpty
  · have hc' : content = [] := by cases content <;> simp_all
    subst hc'
    have h1 : decode_content [] encoding = "" := rfl
    rw [h1]
    simp [decodeSpec, firstSuccess_nil_spec]
  · have hc' : content.isEmpty = false := by simpa using hc
    simp only [decode_content, decodeSpec, specAttemptOrder, hc', Bool.false_eq_true,
      if_false]
    simp only [firstSuccess]
    cases h : strictDecode encoding content with
    | some s => simp
    | none =>
      simp only [tryFallbacks_eq_firstSuccess]

/-- Claim C9: for empty content, `detect_encoding` returns the default
"utf-8" whatever the chardet oracle, URL, or heuristics would say — the
detection pipeline is never consulted — and `decode_content` of empty content
returns the empty string for every requested label. -/
theorem empty_content_defaults (oracle : List Nat → Option String) (url : String)
    (enc : String) :
    detect_encoding oracle [] url = "utf-8" ∧ decode_content [] enc = "" :=
  ⟨rfl, rfl⟩

/-- When declared-encoding extraction succeeds, detection returns its label,
bypassing chardet and the heuristics. -/
theorem detect_of_extract (oracle : List Nat → Option String) (url : String)
    {content : List Nat} {e : String}
    (h : extract_encoding_from_content content = some e) :
    detect_encoding oracle content url = e := by
  have hne : content.isEmpty = false := by
    cases content
    · simp [extract_encoding_from_content] at h
    · rfl
  simp [detect_encoding, hne, h]

/-- Claim C4 counterexample: this content contains a valid utf-8 charset
declaration within its first 2 KB, yet detection returns "gbk", because an
earlier `charset=gbk` declaration wins the leftmost regex search. -/
theorem utf8_declaration_shadowed :
    hasUtf8DeclarationIn2KB (keyBytes "charset=gbk charset=utf-8") = true ∧
    detect_encoding (fun _ => none) (keyBytes "charset=gbk charset=utf-8") "" = "gbk" := by
  constructor <;> decide

/-- Claim C4 (amended): if the first recognized charset/encoding declaration
in the first 2 KB normalizes to utf-8 (charset matches take priority over
encoding matches, and the leftmost match of each pattern is the one
examined), then detection returns "utf-8" for every chardet oracle and URL;
and when the content strictly utf-8 decodes to a character list `cs`, the
decoded text round-trips exactly: decoding with the detected encoding gives
back the string of `cs`. -/
theorem utf8_declaration_roundtrip (oracle : List Nat → Option String)
    (url : String) (content : List Nat) (cs : List Char)
    (hdecl : extract_encoding_from_content content = some "utf-8")
    (hdec : utf8DecodeList content = some cs) :
    detect_encoding oracle content url = "utf-8" ∧
    decode_content content (detect_encoding oracle content url) = String.mk cs := by
  have h1 : detect_encoding oracle content url = "utf-8" := detect_of_extract oracle url hdecl
  refine ⟨h1, ?_⟩
  rw [h1]
  have hne : content.isEmpty = false := by
    cases content
    · simp [extract_encoding_from_content] at hdecl
    · rfl
  have h2 : strictDecode "utf-8" content = some (String.mk cs) := by
    have hl : lookupCodec "utf-8" = some utf8DecodeList := rfl
    simp [strictDecode, hl, hdec]
  simp [decode_content, hne, h2]

/-- Claim C4 witness: a concrete content with a leading utf-8 declaration. -/
theorem utf8_declaration_roundtrip_witness :
    detect_encoding (fun _ => none) (keyBytes "<meta charset=utf-8>hello") "" = "utf-8" ∧
    decode_content (keyBytes "<meta charset=utf-8>hello")
      (detect_encoding (fun _ => none) (keyBytes "<meta charset=utf-8>hello") "") =
      "<meta charset=utf-8>hello" :=
  utf8_declaration_roundtrip (fun _ => none) "" (keyBytes "<meta charset=utf-8>hello")
    ("<meta charset=utf-8>hello".toList) (by decide) (by decide)

/-- Property accesses mutate nothing: running a call sequence yields the
per-call values, with the object state unchanged. -/
theorem runCalls_spec (r : UnifiedResp) (calls : List RespCall) :
    r.runCalls calls = (calls.map fun c => (r.runCall c).1, r) := by
  induction calls with
  | nil => rfl
  | cons c cs ih =>
    cases c <;> simp [UnifiedResp.runCalls, UnifiedResp.runCall, ih]

/-- Claim C7: on one UnifiedResp instance, any two accesses of the same
property in any interleaved call sequence return identical values — text
always yields the same string and encoding the same label fixed at
construction (the properties read only immutable state). -/
theorem text_encoding_repeated_calls (r : UnifiedResp) (calls : List RespCall)
    (i j : Nat) (h : calls[i]? = calls[j]?) :
    (r.runCalls calls).1[i]? = (r.runCalls calls).1[j]? := by
  rw [runCalls_spec]
  simp only [List.getElem?_map, h]

/-- Claim C7 witness: first and third calls of a text-encoding-text sequence
agree on a concrete instance. -/
theorem text_encoding_repeated_calls_witness :
    (bareResp.runCalls [RespCall.textProp, RespCall.encodingProp, RespCall.textProp]).1[0]? =
    (bareResp.runCalls [RespCall.textProp, RespCall.encodingProp, RespCall.textProp]).1[2]? :=
  text_encoding_repeated_calls bareResp
    [RespCall.textProp, RespCall.encodingProp, RespCall.textProp] 0 2 (by decide)

/-- Claim C10: truthiness of a UnifiedResp is exactly status == 200, strictly
narrower than ok's [200, 300): a 201 or 204 response is ok but falsy. -/
theorem truthiness_narrower_than_ok (r : UnifiedResp) :
    (r.toBool = true ↔ r.status = 200) ∧
    (r.status = 201 ∨ r.status = 204 → r.ok = true ∧ r.toBool = false) := by
  constructor
  · simp [UnifiedResp.toBool]
  · rintro (h | h) <;> simp [UnifiedResp.ok, UnifiedResp.toBool, h]

/-- Claim C10 witness: a 204 response is ok but falsy. -/
theorem truthiness_narrower_than_ok_witness :
    (sampleResp 204 false false JsonMethod.absent).ok = true ∧
    (sampleResp 204 false false JsonMethod.absent).toBool = false :=
  (truthiness_narrower_than_ok (sampleResp 204 false false JsonMethod.absent)).2
    (Or.inr (by rfl))

/-- Claim C3 counterexample: a response whose raw object exposes a native
raise_for_status that does not raise — as requests' and aiohttp's do for a
301 redirect — is not ok, yet raise_for_status returns normally, refuting
"raises iff ok is false" as stated. -/
theorem raise_for_status_delegation_counterexample :
    (sampleResp 301 true false JsonMethod.absent).ok = false ∧
    (sampleResp 301 true false JsonMethod.absent).raise_for_status = Except.ok () :=
  ⟨by rfl, by rfl⟩

/-- Claim C3 (amended): ok is true iff status lies in [200, 300), for every
instance; raise_for_status raises iff ok is false whenever no native
raise_for_status is delegated to; when the raw object does expose one,
raising follows the native check instead. -/
theorem ok_and_raise_for_status (r : UnifiedResp) :
    (r.ok = true ↔ 200 ≤ r.status ∧ r.status < 300) ∧
    ((∀ raw, r.hasAdapter = true → r.raw = some raw → raw.hasNativeRaise = false) →
      ((∃ e, r.raise_for_status = Except.error e) ↔ r.ok = false)) ∧
    (∀ raw, r.hasAdapter = true → r.raw = some raw → raw.hasNativeRaise = true →
      ((∃ e, r.raise_for_status = Except.error e) ↔ raw.nativeRaises = true)) := by
  refine ⟨by simp [UnifiedResp.ok], ?_, ?_⟩
  · intro h
    by_cases ha : r.hasAdapter = true
    · cases hr : r.raw with
      | none =>
        cases hok : r.ok <;>
          simp [UnifiedResp.raise_for_status, ha, hr, hok]
      | some raw =>
        have hn := h raw ha hr
        cases hok : r.ok <;>
          simp [UnifiedResp.raise_for_status, ha, hr, hn, hok]
    · have ha2 : r.hasAdapter = false := by simpa using ha
      cases hok : r.ok <;>
        simp [UnifiedResp.raise_for_status, ha2, hok]
  · intro raw ha hr hn
    cases hb : raw.nativeRaises <;>
      simp [UnifiedResp.raise_for_status, ha, hr, hn, hb]

/-- Claim C3 witness: without a native check, a 404 response's
raise_for_status raises, matching not-ok. -/
theorem ok_and_raise_for_status_witness :
    (∃ e, (sampleResp 404 false false JsonMethod.absent).raise_for_status =
      Except.error e) ↔
    (sampleResp 404 false false JsonMethod.absent).ok = false :=
  (ok_and_raise_for_status (sampleResp 404 false false JsonMethod.absent)).2.1
    (fun raw _ hr => by
      simp only [sampleResp] at hr
      injection hr with h2
      subst h2
      rfl)

/-- Claim C6 counterexample: the json property catches only ValueError,
TypeError and AttributeError; a raw object whose json() raises any other
exception class propagates it, so json can raise. -/
theorem json_uncaught_exception_counterexample :
    UnifiedResp.json (fun _ => none)
      (sampleResp 200 false false (JsonMethod.raises PyExcKind.other)) =
    Except.error PyExcKind.other := by rfl

/-- Claim C6 (amended): provided the raw object's native JSON parse succeeds,
is absent, or raises only the caught classes (ValueError, TypeError,
AttributeError — which is how the bundled transports behave), the json
property never raises and follows the chain: the native parse's value first;
on a caught failure or absent native parse, non-empty text parsed as JSON;
and the empty object when both stages fail. -/
theorem json_fallback_chain (loads : String → Option JsonVal) (r : UnifiedResp)
    (h : ∀ raw k, r.raw = some raw → raw.jsonMethod = JsonMethod.raises k →
      caughtByJson k = true) :
    (∃ v, r.json loads = Except.ok v) ∧
    (∀ raw v, r.raw = some raw → raw.jsonMethod = JsonMethod.value v →
      r.json loads = Except.ok v) ∧
    (∀ raw k, r.raw = some raw → raw.jsonMethod = JsonMethod.raises k →
      r.json loads = Except.ok (textStageJson loads r)) ∧
    ((r.raw = none ∨ ∃ raw, r.raw = some raw ∧ raw.jsonMethod = JsonMethod.absent) →
      r.json loads = Except.ok (textStageJson loads r)) := by
  refine ⟨?_, ?_, ?_, ?_⟩
  · cases hr : r.raw with
    | none => exact ⟨textStageJson loads r, by simp [UnifiedResp.json, hr]⟩
    | some raw =>
      cases hm : raw.jsonMethod with
      | absent => exact ⟨textStageJson loads r, by simp [UnifiedResp.json, hr, hm]⟩
      | value v => exact ⟨v, by simp [UnifiedResp.json, hr, hm]⟩
      | raises k =>
        exact ⟨textStageJson loads r,
          by simp [UnifiedResp.json, hr, hm, h raw k hr hm]⟩
  · intro raw v hr hm
    simp [UnifiedResp.json, hr, hm]
  · intro raw k hr hm
    simp [UnifiedResp.json, hr, hm, h raw k hr hm]
  · rintro (hr | ⟨raw, hr, hm⟩)
    · simp [UnifiedResp.json, hr]
    · simp [UnifiedResp.json, hr, hm]

/-- Claim C6 witness: a raw object with a native parse value makes json
return that value, never raising. -/
theorem json_fallback_chain_witness :
    UnifiedResp.json (fun _ => none)
      (sampleResp 200 false false (JsonMethod.value (JsonVal.num 7))) =
    Except.ok (JsonVal.num 7) :=
  (json_fallback_chain (fun _ => none)
    (sampleResp 200 false false (JsonMethod.value (JsonVal.num 7)))
    (fun raw k hraw hm => by
      simp only [sampleResp] at hraw
      injection hraw with h2
      subst h2
      cases hm)).2.1
    (RawResp.mk (some 200) false false (JsonMethod.value (JsonVal.num 7)) [])
    (JsonVal.num 7) (by rfl) (by rfl)

/-- Replacing a list element shifts countP by the difference between the old
and new elements' predicate values. -/
theorem countP_set_eq {α : Type} (p : α → Bool) (l : List α) (i : Nat) (a b : α)
    (h : l[i]? = some a) :
    (l.set i b).countP p + (if p a then 1 else 0) =
      l.countP p + (if p b then 1 else 0) := by
  induction l generalizing i with
  | nil => simp at h
  | cons x xs ih =>
    cases i with
    | zero =>
      simp only [List.getElem?_cons_zero] at h
      injection h with h2
      subst h2
      simp only [List.set_cons_zero, List.countP_cons]
      omega
    | succ n =>
      simp only [List.getElem?_cons_succ] at h
      have h2 := ih n h
      simp only [List.set_cons_succ, List.countP_cons]
      omega

/-- No task is in flight at the start of a run. -/
theorem inflight_init (k n : Nat) : inflight (initSched k n) = 0 := by
  simp only [inflight, initSched, List.countP_eq_zero]
  intro a ha
  rw [List.eq_of_mem_replicate ha]
  decide

/-- Gate invariant: the semaphore counter plus the number of in-flight tasks
is constantly the ceiling `k` in every reachable state. -/
theorem sched_invariant {k n : Nat} {s : SchedState} (h : SchedReachable k n s) :
    s.sem + inflight s = k := by
  induction h with
  | init =>
    rw [inflight_init]
    simp [initSched]
  | step h1 hstep ih =>
    rename_i s1 s2
    cases hstep with
    | acquire i hi hs =>
      have hc := countP_set_eq (fun x => x == TaskPhase.running) s1.tasks i
        TaskPhase.idle TaskPhase.running hi
      simp only [inflight] at *
      simp at hc
      omega
    | finish i hi =>
      have hc := countP_set_eq (fun x => x == TaskPhase.running) s1.tasks i
        TaskPhase.running TaskPhase.done hi
      simp only [inflight] at *
      simp at hc
      omega

/-- Claim C5: in every state reachable in a batch run with ceiling k (both
batch modes wrap every task body in `async with self.semaphore`, the counting
admission gate acquired before sending and released after completion or
failure), at most k tasks are concurrently in flight — for every task count
n, in particular N greater than k. -/
theorem concurrency_ceiling (k n : Nat) (s : SchedState) (h : SchedReachable k n s) :
    inflight s ≤ k := by
  have h2 := sched_invariant h
  omega

/-- Claim C5 witness: with ceiling 2 and 3 tasks, the state reached by two
admissions has two tasks in flight, within the ceiling. -/
theorem concurrency_ceiling_witness :
    inflight (SchedState.mk 0
      [TaskPhase.running, TaskPhase.running, TaskPhase.idle]) ≤ 2 := by
  refine concurrency_ceiling 2 3 _ ?_
  have h0 : SchedReachable 2 3 (initSched 2 3) := SchedReachable.init
  have h1 : SchedReachable 2 3
      (SchedState.mk 1 [TaskPhase.running, TaskPhase.idle, TaskPhase.idle]) :=
    SchedReachable.step h0 (SchedStep.acquire (initSched 2 3) 0 (by decide) (by decide))
  exact SchedReachable.step h1
    (SchedStep.acquire
      (SchedState.mk 1 [TaskPhase.running, TaskPhase.idle, TaskPhase.idle]) 1
      (by decide) (by decide))

/-- Folding index-keyed writes preserves the list length. -/
theorem foldlSet_length {γ ρ : Type} (g : Nat × γ → BatchCell ρ)
    (cells : List (BatchCell ρ)) (l : List (Nat × γ)) :
    (l.foldl (fun acc p => acc.set p.1 (g p)) cells).length = cells.length := by
  induction l generalizing cells with
  | nil => rfl
  | cons p rest ih => rw [List.foldl_cons, ih, List.length_set]

/-- A position written by no element of the fold keeps its value. -/
theorem foldlSet_getElem_notmem {γ ρ : Type} (g : Nat × γ → BatchCell ρ)
    (cells : List (BatchCell ρ)) (l : List (Nat × γ)) (i : Nat)
    (h : i ∉ l.map Prod.fst) :
    (l.foldl (fun acc p => acc.set p.1 (g p)) cells)[i]? = cells[i]? := by
  induction l generalizing cells with
  | nil => rfl
  | cons p rest ih =>
    simp only [List.map_cons, List.mem_cons] at h
    push_neg at h
    rw [List.foldl_cons, ih _ h.2, List.getElem?_set_ne (Ne.symm h.1)]

/-- With pairwise-distinct target indices, the fold stores the written value
at each written position. -/
theorem foldlSet_getElem_mem {γ ρ : Type} (g : Nat × γ → BatchCell ρ)
    (cells : List (BatchCell ρ)) (l : List (Nat × γ)) (i : Nat) (x : γ)
    (hnd : (l.map Prod.fst).Nodup) (hmem : (i, x) ∈ l) (hlen : i < cells.length) :
    (l.foldl (fun acc p => acc.set p.1 (g p)) cells)[i]? = some (g (i, x)) := by
  induction l generalizing cells with
  | nil => simp at hmem
  | cons p rest ih =>
    simp only [List.map_cons, List.nodup_cons] at hnd
    rcases List.mem_cons.mp hmem with h1 | h2
    · subst h1
      rw [List.foldl_cons]
      have hni : i ∉ rest.map Prod.fst := by simpa using hnd.1
      rw [foldlSet_getElem_notmem g _ rest i hni]
      exact List.getElem?_set_eq_of_lt _ hlen
    · have hp : p.1 ≠ i := by
        intro he
        refine hnd.1 ?_
        rw [he]
        exact List.mem_map_of_mem Prod.fst h2
      rw [List.foldl_cons]
      exact ih (cells.set p.1 (g p)) hnd.2 h2 (by rw [List.length_set]; exact hlen)

/-- With pairwise-distinct target indices, index-keyed writes commute: the
fold's result does not depend on the order the writes arrive in. -/
theorem foldlSet_perm {γ ρ : Type} (g : Nat × γ → BatchCell ρ)
    (cells : List (BatchCell ρ)) {l l2 : List (Nat × γ)}
    (hperm : l.Perm l2) (hnd : (l.map Prod.fst).Nodup) :
    l.foldl (fun acc p => acc.set p.1 (g p)) cells =
      l2.foldl (fun acc p => acc.set p.1 (g p)) cells := by
  refine hperm.foldl_eq' ?_ cells
  intro x hx y hy z
  by_cases hxy : x = y
  · subst hxy; rfl
  · have hne : x.1 ≠ y.1 := fun he => hxy (List.inj_on_of_nodup_map hnd hx hy he)
    exact List.set_comm _ _ _ hne

/-- Soundness of the enumeration: a pair of `valid_tasks` points back to a
valid url entry at its original position. -/
theorem validTasksFrom_sound {entries : List UrlEntry} {k i : Nat} {s : String}
    (h : (i, s) ∈ validTasksFrom k entries) :
    k ≤ i ∧ i - k < entries.length ∧ entries[i - k]? = some (.url s) := by
  induction entries generalizing k with
  | nil => simp [validTasksFrom] at h
  | cons e rest ih =>
    cases e with
    | url t =>
      rw [validTasksFrom] at h
      rcases List.mem_cons.mp h with h1 | h2
      · injection h1 with ha hb
        subst ha
        subst hb
        exact ⟨le_refl i, by simp, by simp⟩
      · obtain ⟨hk, hlen, hget⟩ := ih h2
        refine ⟨by omega, by simp only [List.length_cons]; omega, ?_⟩
        have he : i - k = (i - (k + 1)) + 1 := by omega
        rw [he, List.getElem?_cons_succ]
        exact hget
    | invalid u =>
      rw [validTasksFrom] at h
      obtain ⟨hk, hlen, hget⟩ := ih h
      refine ⟨by omega, by simp only [List.length_cons]; omega, ?_⟩
      have he : i - k = (i - (k + 1)) + 1 := by omega
      rw [he, List.getElem?_cons_succ]
      exact hget

/-- Completeness of the enumeration: every valid url entry contributes a task
carrying its original position. -/
theorem validTasksFrom_complete {entries : List UrlEntry} {j : Nat} {s : String}
    (k : Nat) (h : entries[j]? = some (.url s)) :
    (k + j, s) ∈ validTasksFrom k entries := by
  induction entries generalizing k j with
  | nil => simp at h
  | cons e rest ih =>
    cases j with
    | zero =>
      rw [List.getElem?_cons_zero] at h
      injection h with h2
      subst h2
      rw [validTasksFrom]
      simp
    | succ m =>
      rw [List.getElem?_cons_succ] at h
      have hmem := ih (k + 1) h
      have he : k + (m + 1) = (k + 1) + m := by omega
      rw [he]
      cases e with
      | url t =>
        rw [validTasksFrom]
        exact List.mem_cons_of_mem _ hmem
      | invalid u =>
        rw [validTasksFrom]
        exact hmem

/-- The original positions recorded in `valid_tasks` are pairwise distinct. -/
theorem validTasksFrom_nodup (entries : List UrlEntry) (k : Nat) :
    ((validTasksFrom k entries).map Prod.fst).Nodup := by
  induction entries generalizing k with
  | nil => simp [validTasksFrom]
  | cons e rest ih =>
    cases e with
    | url t =>
      rw [validTasksFrom]
      simp only [List.map_cons, List.nodup_cons]
      refine ⟨?_, ih (k + 1)⟩
      intro hmem
      obtain ⟨⟨i, s⟩, hm, hfst⟩ := List.mem_map.mp hmem
      obtain ⟨hk, _, _⟩ := validTasksFrom_sound hm
      simp only at hfst
      omega
    | invalid u =>
      rw [validTasksFrom]
      exact ih (k + 1)

/-- Soundness of the invalid enumeration. -/
theorem invalidFrom_sound {entries : List UrlEntry} {k i : Nat} {u : UrlInput}
    (h : (i, u) ∈ invalidFrom k entries) :
    k ≤ i ∧ i - k < entries.length ∧ entries[i - k]? = some (.invalid u) := by
  induction entries generalizing k with
  | nil => simp [invalidFrom] at h
  | cons e rest ih =>
    cases e with
    | invalid t =>
      rw [invalidFrom] at h
      rcases List.mem_cons.mp h with h1 | h2
      · injection h1 with ha hb
        subst ha
        subst hb
        exact ⟨le_refl i, by simp, by simp⟩
      · obtain ⟨hk, hlen, hget⟩ := ih h2
        refine ⟨by omega, by simp only [List.length_cons]; omega, ?_⟩
        have he : i - k = (i - (k + 1)) + 1 := by omega
        rw [he, List.getElem?_cons_succ]
        exact hget
    | url t =>
      rw [invalidFrom] at h
      obtain ⟨hk, hlen, hget⟩ := ih h
      refine ⟨by omega, by simp only [List.length_cons]; omega, ?_⟩
      have he : i - k = (i - (k + 1)) + 1 := by omega
      rw [he, List.getElem?_cons_succ]
      exact hget

/-- Completeness of the invalid enumeration. -/
theorem invalidFrom_complete {entries : List UrlEntry} {j : Nat} {u : UrlInput}
    (k : Nat) (h : entries[j]? = some (.invalid u)) :
    (k + j, u) ∈ invalidFrom k entries := by
  induction entries generalizing k j with
  | nil => simp at h
  | cons e rest ih =>
    cases j with
    | zero =>
      rw [List.getElem?_cons_zero] at h
      injection h with h2
      subst h2
      rw [invalidFrom]
      simp
    | succ m =>
      rw [List.getElem?_cons_succ] at h
      have hmem := ih (k + 1) h
      have he : k + (m + 1) = (k + 1) + m := by omega
      rw [he]
      cases e with
      | url t =>
        rw [invalidFrom]
        exact hmem
      | invalid t =>
        rw [invalidFrom]
        exact List.mem_cons_of_mem _ hmem

/-- The positions recorded in `invalid_indices` are pairwise distinct. -/
theorem invalidFrom_nodup (entries : List UrlEntry) (k : Nat) :
    ((invalidFrom k entries).map Prod.fst).Nodup := by
  induction entries generalizing k with
  | nil => simp [invalidFrom]
  | cons e rest ih =>
    cases e with
    | invalid t =>
      rw [invalidFrom]
      simp only [List.map_cons, List.nodup_cons]
      refine ⟨?_, ih (k + 1)⟩
      intro hmem
      obtain ⟨⟨i, u⟩, hm, hfst⟩ := List.mem_map.mp hmem
      obtain ⟨hk, _, _⟩ := invalidFrom_sound hm
      simp only at hfst
      omega
    | url t =>
      rw [invalidFrom]
      exact ih (k + 1)

/-- A position holding an invalid entry contributes no valid task. -/
theorem not_mem_validTasks_of_invalid {entries : List UrlEntry} {i : Nat}
    {u : UrlInput} (h : entries[i]? = some (.invalid u)) :
    i ∉ (validTasksFrom 0 entries).map Prod.fst := by
  intro hmem
  obtain ⟨⟨i2, s⟩, hm, hfst⟩ := List.mem_map.mp hmem
  simp only at hfst
  subst hfst
  obtain ⟨_, _, hget⟩ := validTasksFrom_sound hm
  rw [Nat.sub_zero, h] at hget
  injection hget with h3
  cases h3

/-- The chunk worker flattens back to the pending chunk plus the remainder. -/
theorem chunksAux_flatten {α : Type} (k : Nat) (l : List α) :
    ∀ (c : Nat) (cur : List α), (chunksAux k l c cur).flatten = cur.reverse ++ l := by
  induction l with
  | nil =>
    intro c cur
    rw [chunksAux]
    by_cases h : cur.isEmpty
    · have h2 : cur = [] := by cases cur <;> simp_all
      subst h2
      simp
    · have h2 : cur.isEmpty = false := by simpa using h
      rw [h2]
      simp
  | cons a rest ih =>
    intro c cur
    rw [chunksAux]
    by_cases hc : c = 0
    · rw [if_pos hc, List.flatten_cons, ih (k - 1) [a]]
      simp
    · rw [if_neg hc, ih (c - 1) (a :: cur)]
      simp

/-- Splitting into chunks and flattening is the identity. -/
theorem chunksOf_flatten {α : Type} (k : Nat) (l : List α) :
    (chunksOf k l).flatten = l := by
  rw [chunksOf, chunksAux_flatten]
  rfl

/-- Folding the write-back chunk by chunk equals one write-back over the
concatenation of the (reordered) chunks. -/
theorem foldl_chunks_eq_flatten {ρ : Type} (exec : Nat → String → ρ)
    (chunks : List (List (Nat × String)))
    (reorder : List (Nat × String) → List (Nat × String))
    (cells : List (BatchCell ρ)) :
    chunks.foldl (fun acc chunk => writeOutcomes exec acc (reorder chunk)) cells =
      writeOutcomes exec cells ((chunks.map reorder).flatten) := by
  induction chunks generalizing cells with
  | nil => rfl
  | cons c cs ih =>
    rw [List.foldl_cons, ih, List.map_cons, List.flatten_cons]
    unfold writeOutcomes
    rw [List.foldl_append]

/-- Reordering every chunk yields a permutation of the flattened task list. -/
theorem flatten_map_reorder_perm
    (reorder : List (Nat × String) → List (Nat × String))
    (hre : ∀ l : List (Nat × String), (reorder l).Perm l)
    (chunks : List (List (Nat × String))) :
    ((chunks.map reorder).flatten).Perm chunks.flatten := by
  apply List.Perm.flatten_congr
  induction chunks with
  | nil => exact List.Forall₂.nil
  | cons c cs ih =>
    rw [List.map_cons]
    exact List.Forall₂.cons (hre c) ih

/-- The canonical batch result: invalid markers pre-set, then every valid
task's outcome written at its original index, in enumeration order. -/
theorem multi_request_canonical {ρ : Type} (exec : Nat → String → ρ)
    (reorder : List (Nat × String) → List (Nat × String))
    (hre : ∀ l : List (Nat × String), (reorder l).Perm l)
    (entries : List UrlEntry) :
    multi_request exec reorder entries =
      writeOutcomes exec
        (setInvalids (List.replicate entries.length BatchCell.pending)
          (invalidFrom 0 entries))
        (validTasksFrom 0 entries) := by
  unfold multi_request writeOutcomes
  refine foldlSet_perm (fun p => BatchCell.outcome (exec p.1 p.2)) _
    (hre (validTasksFrom 0 entries)) ?_
  have hp := (hre (validTasksFrom 0 entries)).map Prod.fst
  exact hp.nodup_iff.mpr (validTasksFrom_nodup entries 0)

/-- Chunked mode reaches the same canonical batch result. -/
theorem batch_request_canonical {ρ : Type} (exec : Nat → String → ρ) (k : Nat)
    (reorder : List (Nat × String) → List (Nat × String))
    (hre : ∀ l : List (Nat × String), (reorder l).Perm l)
    (entries : List UrlEntry) :
    batch_request exec k reorder entries =
      writeOutcomes exec
        (setInvalids (List.replicate entries.length BatchCell.pending)
          (invalidFrom 0 entries))
        (validTasksFrom 0 entries) := by
  unfold batch_request
  rw [foldl_chunks_eq_flatten]
  have hp : (((chunksOf k (validTasksFrom 0 entries)).map reorder).flatten).Perm
      (validTasksFrom 0 entries) := by
    have h1 := flatten_map_reorder_perm reorder hre (chunksOf k (validTasksFrom 0 entries))
    rw [chunksOf_flatten] at h1
    exact h1
  unfold writeOutcomes
  refine foldlSet_perm (fun p => BatchCell.outcome (exec p.1 p.2)) _ hp ?_
  exact (hp.map Prod.fst).nodup_iff.mpr (validTasksFrom_nodup entries 0)

/-- Position-wise content of the canonical batch result. -/
theorem canonical_getElem {ρ : Type} (exec : Nat → String → ρ)
    (entries : List UrlEntry) (i : Nat) (e : UrlEntry)
    (hget : entries[i]? = some e) :
    (writeOutcomes exec
        (setInvalids (List.replicate entries.length BatchCell.pending)
          (invalidFrom 0 entries))
        (validTasksFrom 0 entries))[i]? = some (cellOfEntry exec i e) := by
  have hlen0 : i < entries.length := by
    by_contra hcon
    rw [List.getElem?_eq_none (by omega)] at hget
    cases hget
  cases e with
  | url s =>
    have hmem : (i, s) ∈ validTasksFrom 0 entries := by
      have h1 := validTasksFrom_complete 0 hget
      simpa using h1
    have hlen : i < (setInvalids (List.replicate entries.length
        (BatchCell.pending : BatchCell ρ)) (invalidFrom 0 entries)).length := by
      unfold setInvalids
      rw [foldlSet_length (fun p => BatchCell.invalidUrl p.2), List.length_replicate]
      exact hlen0
    exact foldlSet_getElem_mem (fun p => BatchCell.outcome (exec p.1 p.2)) _ _ i s
      (validTasksFrom_nodup entries 0) hmem hlen
  | invalid u =>
    have hnot : i ∉ (validTasksFrom 0 entries).map Prod.fst :=
      not_mem_validTasks_of_invalid hget
    unfold writeOutcomes
    rw [foldlSet_getElem_notmem (fun p => BatchCell.outcome (exec p.1 p.2)) _ _ i hnot]
    have hmem : (i, u) ∈ invalidFrom 0 entries := by
      have h1 := invalidFrom_complete 0 hget
      simpa using h1
    unfold setInvalids
    exact foldlSet_getElem_mem (fun p => BatchCell.invalidUrl p.2) _ _ i u
      (invalidFrom_nodup entries 0) hmem
      (by rw [List.length_replicate]; exact hlen0)

/-- The canonical per-entry cell of a validated input is the contract's
predicted cell. -/
theorem cellOfEntry_validatedEntry {ρ : Type} (exec : Nat → String → ρ) (i : Nat)
    (u : UrlInput) :
    cellOfEntry exec i (validatedEntry u) = expectedCell exec i u := by
  cases u with
  | str s =>
    by_cases hv : hasNonSpace s <;>
      simp [validatedEntry, cellOfEntry, expectedCell, hv]
  | nonStr => rfl

/-- Claim C1 counterexample: the input " " is a non-empty string, yet both
batch modes record an invalid-URL error at its position — the pre-pass tests
`url.strip()`, not mere non-emptiness. -/
theorem nonempty_whitespace_url_counterexample :
    (" " : String) ≠ "" ∧ hasNonSpace " " = false ∧
    multi_request (fun i _ => i) id (validateUrls [UrlInput.str " "]) =
      [BatchCell.invalidUrl (UrlInput.str " ")] ∧
    batch_request (fun i _ => i) 1 id (validateUrls [UrlInput.str " "]) =
      [BatchCell.invalidUrl (UrlInput.str " ")] :=
  ⟨by decide, by decide, by rfl, by rfl⟩

/-- Claim C1 (amended): for every input sequence, task-outcome assignment,
chunk size and completion order (any permutation of the written-back tasks, in
either mode), the shared-session and chunked batch results are identical,
have the input's length, and hold at position i the invalid-URL error exactly
when input i is not a string containing a non-whitespace character (Python's
`url.strip()` test), and the outcome produced for input i otherwise. -/
theorem batch_result_order_invariant {ρ : Type} (exec : Nat → String → ρ) (k : Nat)
    (reorder : List (Nat × String) → List (Nat × String))
    (hre : ∀ l : List (Nat × String), (reorder l).Perm l) (_hk : 0 < k)
    (urls : List UrlInput) :
    multi_request exec reorder (validateUrls urls) =
      batch_request exec k reorder (validateUrls urls) ∧
    (multi_request exec reorder (validateUrls urls)).length = urls.length ∧
    ∀ i u, urls[i]? = some u →
      (multi_request exec reorder (validateUrls urls))[i]? =
        some (expectedCell exec i u) := by
  have hmc := multi_request_canonical exec reorder hre (validateUrls urls)
  have hbc := batch_request_canonical exec k reorder hre (validateUrls urls)
  refine ⟨by rw [hmc, hbc], ?_, ?_⟩
  · rw [hmc]
    unfold writeOutcomes setInvalids
    rw [foldlSet_length (fun p => BatchCell.outcome (exec p.1 p.2)),
      foldlSet_length (fun p => BatchCell.invalidUrl p.2), List.length_replicate]
    exact List.length_map urls _
  · intro i u hget
    rw [hmc]
    have hget2 : (validateUrls urls)[i]? = some (validatedEntry u) := by
      rw [validateUrls, List.getElem?_map, hget]
      rfl
    rw [canonical_getElem exec (validateUrls urls) i (validatedEntry u) hget2,
      cellOfEntry_validatedEntry]

/-- Claim C1 witness: a concrete four-element batch (empty string, valid url,
non-string, valid url) with ceiling 2 and identity completion order. -/
theorem batch_result_order_invariant_witness :
    multi_request (fun i _ => i) id
        (validateUrls [UrlInput.str "", UrlInput.str "https://a", UrlInput.nonStr,
          UrlInput.str "x"]) =
      batch_request (fun i _ => i) 2 id
        (validateUrls [UrlInput.str "", UrlInput.str "https://a", UrlInput.nonStr,
          UrlInput.str "x"]) ∧
    (multi_request (fun i _ => i) id
        (validateUrls [UrlInput.str "", UrlInput.str "https://a", UrlInput.nonStr,
          UrlInput.str "x"])).length = 4 ∧
    (multi_request (fun i _ => i) id
        (validateUrls [UrlInput.str "", UrlInput.str "https://a", UrlInput.nonStr,
          UrlInput.str "x"]))[1]? = some (BatchCell.outcome 1) := by
  have h := batch_result_order_invariant (fun i _ => i) 2 id
    (fun l => List.Perm.refl l) (by decide)
    [UrlInput.str "", UrlInput.str "https://a", UrlInput.nonStr, UrlInput.str "x"]
  refine ⟨h.1, h.2.1, ?_⟩
  have h2 := h.2.2 1 (UrlInput.str "https://a") (by rfl)
  rw [h2]
  rfl

/-- Claim C8 counterexample: with an empty URL list, multi_parse returns []
before validating the method, so an unsupported method raises nothing. -/
theorem multi_parse_empty_urls_no_validation :
    REQUEST_METHODS.contains (strToLower "frobnicate") = false ∧
    multi_parse (fun i _ => i) id 1 "frobnicate" [] false = Except.ok [] :=
  ⟨by decide, by rfl⟩

/-- Claim C8 (amended): for every unsupported method name, single_parse
raises a validation error synchronously (the invalid-URL error when the URL
is also invalid, the unknown-method error otherwise), whatever the network
would do; multi_parse raises the unknown-method error whenever the URL list
is non-empty, but returns [] without validating the method when it is empty. -/
theorem unsupported_method_validation {ρ : Type} (runNet : String → String → ρ)
    (exec : Nat → String → ρ)
    (reorder : List (Nat × String) → List (Nat × String)) (k : Nat)
    (method : String)
    (hm : REQUEST_METHODS.contains (strToLower method) = false) :
    (∀ url, ∃ e, single_parse runNet method url = Except.error e) ∧
    (∀ urls fs, urls ≠ [] →
      multi_parse exec reorder k method urls fs =
        Except.error (ValidationError.unknownMethod method)) := by
  constructor
  · intro url
    by_cases hu : hasNonSpace url
    · refine ⟨ValidationError.unknownMethod method, ?_⟩
      simp only [single_parse, hu, Bool.not_true, Bool.false_eq_true, if_false]
      have hm2 : strToLower method ∉ REQUEST_METHODS := by
        simpa using hm
      simp [hm2]
    · have hu2 : hasNonSpace url = false := by simpa using hu
      exact ⟨ValidationError.invalidUrl url, by simp [single_parse, hu2]⟩
  · intro urls fs hne
    have h1 : urls.isEmpty = false := by
      cases urls with
      | nil => exact absurd rfl hne
      | cons a as => rfl
    have hm2 : strToLower method ∉ REQUEST_METHODS := by
      simpa using hm
    simp [multi_parse, h1, hm2]

/-- Claim C8 witness: the unsupported method "frobnicate" raises a validation
error from single_parse and from multi_parse on a non-empty URL list. -/
theorem unsupported_method_validation_witness :
    (∃ e, single_parse (fun _ _ => (0 : Nat)) "frobnicate" "x" = Except.error e) ∧
    multi_parse (fun i _ => i) id 1 "frobnicate" [UrlInput.str "x"] false =
      Except.error (ValidationError.unknownMethod "frobnicate") := by
  have h := unsupported_method_validation (fun _ _ => (0 : Nat)) (fun i _ => i) id 1
    "frobnicate" (by decide)
  exact ⟨h.1 "x", h.2 [UrlInput.str "x"] false (by simp)⟩

end Xthttp
